import Mathlib

/-!
Shallow embedding of `open_spiel/games/bridge_uncontested_bidding.h`
(uncontested bridge bidding, a two-player purely cooperative game), together
with proofs about the deal machinery, the auction state machine, and the
scoring interface.

Machine integers are modelled as `Nat`/`Int`.  The `std::mt19937` generator is
modelled abstractly as a state type `σ` with a step function
`next : σ → Nat × σ` producing one draw and the successor state; the shuffle
code consumes the generator only through `(*rng)()`, so this captures it
exactly.  Member functions whose bodies live in the corresponding `.cc` file
(absent from the sources at hand) are modelled from the specification; each
such definition carries a doc comment starting with `Modelled from the spec`.
The development lives in namespace `bridge`, mirroring `open_spiel::bridge`.
-/

namespace bridge

/-- Number of suits (`kNumSuits` in the header). -/
def kNumSuits : Nat := 4

/-- Number of denominations, `1 + kNumSuits`: the four suits plus no-trumps. -/
def kNumDenominations : Nat := 1 + kNumSuits

/-- Maximum bid level (`kMaxBid`). -/
def kMaxBid : Nat := 7

/-- Number of distinct bids, `kMaxBid * kNumDenominations`. -/
def kNumBids : Nat := kMaxBid * kNumDenominations

/-- Number of distinct actions, `kNumBids + 1` (all bids plus Pass). -/
def kNumActions : Nat := kNumBids + 1

/-- Cards per suit (`kNumCardsPerSuit`). -/
def kNumCardsPerSuit : Nat := 13

/-- Number of cards, `kNumSuits * kNumCardsPerSuit`. -/
def kNumCards : Nat := kNumSuits * kNumCardsPerSuit

/-- Number of players (`kNumPlayers`). -/
def kNumPlayers : Nat := 2

/-- Minimum score: 13 undertricks, at 50 each (`kMinScore`). -/
def kMinScore : Int := -650

/-- Maximum score: 7NT making (`kMaxScore`). -/
def kMaxScore : Int := 1520

/-- The card array a default-constructed `Deal` holds: `Deal()` runs
`std::iota(std::begin(cards_), std::end(cards_), 0)`, i.e. position `k` holds
card `k`.  Card arrays are modelled as functions on positions; only positions
below `kNumCards` are meaningful. -/
def dealDefault : Nat → Nat := fun k => k

/-- One `std::swap(cards_[i], cards_[j])` on a card array. -/
def swapCards (c : Nat → Nat) (i j : Nat) : Nat → Nat :=
  fun k => if k = i then c j else if k = j then c i else c k

/-- The loop of `Deal::Shuffle`, `for (int i = begin; i < end - 1; ++i)`,
with the remaining iteration count as fuel: in each iteration one draw is
taken from the generator and `cards_[i]` is swapped with `cards_[j]` for
`j = i + (*rng)() % (end - i)`. -/
def shuffleAux {σ : Type} (next : σ → Nat × σ) (e : Nat) :
    Nat → Nat → (Nat → Nat) → σ → (Nat → Nat) × σ
  | 0, _, c, s => (c, s)
  | fuel + 1, i, c, s =>
      shuffleAux next e fuel (i + 1)
        (swapCards c i (i + (next s).1 % (e - i))) (next s).2

/-- `Deal::Shuffle(rng, begin, end)`: a partial Fisher-Yates pass over the
sub-range `[begin, end)`.  The loop runs for `i = begin, …, end - 2`, hence
`end - 1 - begin` iterations (zero when `begin ≥ end - 1`, matching the C++
loop guard `i < end - 1`). -/
def Shuffle {σ : Type} (next : σ → Nat × σ) (b e : Nat)
    (c : Nat → Nat) (s : σ) : (Nat → Nat) × σ :=
  shuffleAux next e (e - 1 - b) b c s

/-- A card array is a permutation of the deck: it maps the positions below
`kNumCards` bijectively onto the card values below `kNumCards`. -/
def IsPerm (c : Nat → Nat) : Prop :=
  Set.BijOn c (Set.Iio kNumCards) (Set.Iio kNumCards)

/-- The card arrays reachable through the public interface of `Deal`:
the default constructor, the constructor from a (permutation) array, and any
sequence of sub-range shuffles with `0 ≤ begin ≤ end ≤ kNumCards`. -/
inductive DealReachable : (Nat → Nat) → Prop where
  | dflt : DealReachable dealDefault
  | ofPerm (c : Nat → Nat) : IsPerm c → DealReachable c
  | shuffled {σ : Type} (next : σ → Nat × σ) (s : σ) (b e : Nat)
      (c : Nat → Nat) : b ≤ e → e ≤ kNumCards → DealReachable c →
      DealReachable (Shuffle next b e c s).1

lemma swapCards_eq_comp (c : Nat → Nat) (i j : Nat) :
    swapCards c i j = c ∘ Equiv.swap i j := by
  funext k
  simp only [swapCards, Function.comp_apply, Equiv.swap_apply_def]
  split_ifs <;> rfl

lemma swap_mapsTo (i j n : Nat) (hi : i < n) (hj : j < n) :
    Set.MapsTo (Equiv.swap i j) (Set.Iio n) (Set.Iio n) := by
  intro k hk
  simp only [Set.mem_Iio] at hk ⊢
  rw [Equiv.swap_apply_def]
  split_ifs <;> omega

lemma swap_bijOn (i j n : Nat) (hi : i < n) (hj : j < n) :
    Set.BijOn (Equiv.swap i j) (Set.Iio n) (Set.Iio n) := by
  refine ⟨swap_mapsTo i j n hi hj, fun a _ b _ h => Equiv.injective _ h, ?_⟩
  intro v hv
  exact ⟨Equiv.swap i j v, swap_mapsTo i j n hi hj hv,
    Equiv.swap_apply_self i j v⟩

lemma isPerm_swapCards (c : Nat → Nat) (i j : Nat) (hi : i < kNumCards)
    (hj : j < kNumCards) (hc : IsPerm c) : IsPerm (swapCards c i j) := by
  have h2 : Set.BijOn (c ∘ Equiv.swap i j) (Set.Iio kNumCards)
      (Set.Iio kNumCards) :=
    Set.BijOn.comp hc (swap_bijOn i j kNumCards hi hj)
  rw [IsPerm, swapCards_eq_comp]
  exact h2

lemma isPerm_default : IsPerm dealDefault := Set.bijOn_id _

lemma shuffleAux_frame {σ : Type} (next : σ → Nat × σ) (e : Nat) :
    ∀ (fuel i : Nat) (c : Nat → Nat) (s : σ) (k : Nat),
      fuel ≤ e - 1 - i → (k < i ∨ e ≤ k) →
      (shuffleAux next e fuel i c s).1 k = c k := by
  intro fuel
  induction fuel with
  | zero => intro i c s k _ _; rfl
  | succ f ih =>
      intro i c s k hf hk
      have hm : (next s).1 % (e - i) < e - i := Nat.mod_lt _ (by omega)
      simp only [shuffleAux]
      rw [ih (i + 1) _ _ k (by omega) (by omega)]
      have h1 : k ≠ i := by omega
      have h2 : k ≠ i + (next s).1 % (e - i) := by omega
      simp [swapCards, h1, h2]

lemma shuffleAux_isPerm {σ : Type} (next : σ → Nat × σ) (e : Nat)
    (he : e ≤ kNumCards) :
    ∀ (fuel i : Nat) (c : Nat → Nat) (s : σ),
      fuel ≤ e - 1 - i → IsPerm c → IsPerm (shuffleAux next e fuel i c s).1 := by
  intro fuel
  induction fuel with
  | zero => intro i c s _ hc; exact hc
  | succ f ih =>
      intro i c s hf hc
      have hm : (next s).1 % (e - i) < e - i := Nat.mod_lt _ (by omega)
      simp only [shuffleAux]
      exact ih (i + 1) _ _ (by omega)
        (isPerm_swapCards _ _ _ (by omega) (by omega) hc)

lemma shuffle_isPerm {σ : Type} (next : σ → Nat × σ) (b e : Nat)
    (c : Nat → Nat) (s : σ) (he : e ≤ kNumCards) (hc : IsPerm c) :
    IsPerm (Shuffle next b e c s).1 :=
  shuffleAux_isPerm next e he (e - 1 - b) b c s (Nat.le_refl _) hc

/-- Iterated advance of the generator state, one draw per step. -/
def iterNext {σ : Type} (next : σ → Nat × σ) : Nat → σ → σ
  | 0, s => s
  | n + 1, s => iterNext next n (next s).2

lemma shuffleAux_state {σ : Type} (next : σ → Nat × σ) (e : Nat) :
    ∀ (fuel i : Nat) (c : Nat → Nat) (s : σ),
      (shuffleAux next e fuel i c s).2 = iterNext next fuel s := by
  intro fuel
  induction fuel with
  | zero => intro i c s; rfl
  | succ f ih =>
      intro i c s
      simp only [shuffleAux, iterNext]
      exact ih (i + 1) _ _

/-- Modelled from the spec: deal generation with rejection sampling (spec
section 4.1); the body of `UncontestedBiddingState::DoApplyAction`, which runs
the shuffle-and-filter loop, lives in the `.cc` file and is absent from the
sources.  The deck is reshuffled until the filter accepts it; `fuel` bounds
the otherwise unbounded retry loop, and the result carries the accepted card
array, the final generator state, and the number of rejection-sampling
rounds used. -/
def generateDeal {σ : Type} (next : σ → Nat × σ)
    (accept : (Nat → Nat) → Bool) (b e : Nat) :
    Nat → (Nat → Nat) → σ → Option ((Nat → Nat) × σ × Nat)
  | 0, _, _ => none
  | fuel + 1, c, s =>
      let r := Shuffle next b e c s
      if accept r.1 then some (r.1, r.2, 1)
      else
        match generateDeal next accept b e fuel r.1 r.2 with
        | none => none
        | some (d, s2, n) => some (d, s2, n + 1)

/-- Claim C4: every card array reachable through `Deal`'s interface — the
default constructor, construction from a permutation array, or any sequence of
`Shuffle` calls over sub-ranges `0 ≤ begin ≤ end ≤ 52` — is a bijection on
`[0, 52)`: every card value appears at exactly one position, with no duplicate
and no missing card. -/
theorem deal_permutation_invariant (c : Nat → Nat) (h : DealReachable c) :
    ∀ v, v < kNumCards → ∃! i, i < kNumCards ∧ c i = v := by
  have hperm : IsPerm c := by
    induction h with
    | dflt => exact isPerm_default
    | ofPerm c hc => exact hc
    | shuffled next s b e c hbe hec _ ih => exact shuffle_isPerm next b e c s hec ih
  intro v hv
  obtain ⟨i, hi, hci⟩ := hperm.2.2 hv
  exact ⟨i, ⟨hi, hci⟩, fun j hj => hperm.2.1 hj.1 hi (hj.2.trans hci.symm)⟩

/-- Witness for C4 at the default deal and card value 7. -/
theorem deal_permutation_invariant_witness :
    DealReachable dealDefault ∧ (∃! i, i < kNumCards ∧ dealDefault i = 7) :=
  ⟨DealReachable.dflt,
    deal_permutation_invariant dealDefault DealReachable.dflt 7 (by decide)⟩

/-- Claim C5: `Shuffle(rng, begin, end)` with `0 ≤ begin ≤ end ≤ 52` modifies
only positions in `[begin, end)`: every position `k` with `k < begin` or
`k ≥ end` holds the same card before and after the call. -/
theorem shuffle_frame {σ : Type} (next : σ → Nat × σ) (b e : Nat)
    (c : Nat → Nat) (s : σ) (k : Nat) (hbe : b ≤ e) (he : e ≤ kNumCards)
    (hk : k < b ∨ e ≤ k) :
    (Shuffle next b e c s).1 k = c k :=
  shuffleAux_frame next e (e - 1 - b) b c s k (Nat.le_refl _) hk

/-- An example generator: state is a counter, each draw returns the counter. -/
def exNext : Nat → Nat × Nat := fun s => (s, s + 1)

/-- Witness for C5: shuffling the sub-range `[1, 3)` leaves position 0
untouched. -/
theorem shuffle_frame_witness :
    (1 ≤ 3 ∧ 3 ≤ kNumCards ∧ ((0 : Nat) < 1 ∨ 3 ≤ (0 : Nat))) ∧
    (Shuffle exNext 1 3 dealDefault 0).1 0 = dealDefault 0 :=
  ⟨⟨by decide, by decide, Or.inl (by decide)⟩,
    shuffle_frame exNext 1 3 dealDefault 0 0 (by decide) (by decide)
      (Or.inl (by decide))⟩

/-- Claim C6: shuffling is deterministic in the generator state.  Two equal
card arrays shuffled over the same range with generators in identical states
yield identical card arrays and leave the generators in identical states
(fully determined: the state is advanced by exactly `end - 1 - begin` draws),
and the rejection-sampling deal generation — accepted card array, final
generator state and number of rounds — is likewise bit-for-bit
reproducible. -/
theorem shuffle_determinism {σ : Type} (next : σ → Nat × σ) (b e : Nat)
    (c1 c2 : Nat → Nat) (s1 s2 : σ) (hc : c1 = c2) (hs : s1 = s2) :
    Shuffle next b e c1 s1 = Shuffle next b e c2 s2 ∧
    (Shuffle next b e c1 s1).2 = iterNext next (e - 1 - b) s1 ∧
    ∀ (accept : (Nat → Nat) → Bool) (fuel : Nat),
      generateDeal next accept b e fuel c1 s1 =
        generateDeal next accept b e fuel c2 s2 := by
  subst hc
  subst hs
  exact ⟨rfl, shuffleAux_state next e (e - 1 - b) b c1 s1, fun _ _ => rfl⟩

/-- Witness for C6 at a concrete generator, range and fuel. -/
theorem shuffle_determinism_witness :
    Shuffle exNext 0 3 dealDefault 5 = Shuffle exNext 0 3 dealDefault 5 ∧
    (Shuffle exNext 0 3 dealDefault 5).2 = iterNext exNext 2 5 ∧
    ∀ (accept : (Nat → Nat) → Bool) (fuel : Nat),
      generateDeal exNext accept 0 3 fuel dealDefault 5 =
        generateDeal exNext accept 0 3 fuel dealDefault 5 := by
  have h := shuffle_determinism exNext 0 3 dealDefault dealDefault 5 5 rfl rfl
  exact ⟨h.1, h.2.1, h.2.2⟩

/-- Actions are integer ids (`open_spiel::Action`). -/
abbrev Action := Nat

/-- Modelled from the spec: the Pass action id.  The constant itself is not in
the header, but the spec fixes it: action id `kNumBids` (the last slot)
denotes Pass. -/
def kPass : Action := kNumBids

/-- Modelled from the spec: the level (1..7) of the bid with action id `a`;
the decomposition of bid ids into level and denomination is implemented in the
`.cc` file, absent from the sources.  Ids are ordered by (level, denomination),
five denominations per level. -/
def bidLevel (a : Action) : Nat := a / kNumDenominations + 1

/-- Modelled from the spec: the denomination (0..4, four suits then no-trumps)
of the bid with action id `a`. -/
def bidDenom (a : Action) : Nat := a % kNumDenominations

/-- Modelled from the spec: the action id of the bid with the given level and
denomination, inverse of the `bidLevel`/`bidDenom` decomposition. -/
def bidId (level denom : Nat) : Action := (level - 1) * kNumDenominations + denom

/-- Whether an action is the Pass action. -/
def isPass (a : Action) : Bool := a == kPass

/-- Whether an action list contains at least one bid (an id below
`kNumBids`). -/
def hasBid (as : List Action) : Bool := as.any fun a => decide (a < kNumBids)

/-- Whether the last two actions of the list are both Pass. -/
def lastTwoPass (as : List Action) : Bool :=
  match as.reverse with
  | a :: b :: _ => isPass a && isPass b
  | _ => false

/-- Modelled from the spec: `UncontestedBiddingState::IsTerminal` (body in the
`.cc` file, absent from the sources).  Per spec section 4.2 the terminal
condition is reached when (a) the last two actions are both Pass and at least
one bid preceded them, or (b) three consecutive passes occur with no bid ever
made (with no bid ever made every action is a pass, so this holds exactly when
at least three actions were taken), or (c) the action count reaches the
maximum possible, `kNumActions`. -/
def isTerminal (as : List Action) : Bool :=
  (lastTwoPass as && hasBid as) ||
  (!hasBid as && decide (3 ≤ as.length)) ||
  decide (kNumActions ≤ as.length)

/-- The highest bid occurring in an action list, if any. -/
def highestBid : List Action → Option Nat
  | [] => none
  | a :: as =>
      if a < kNumBids then
        some (match highestBid as with
              | none => a
              | some b => max a b)
      else highestBid as

/-- A contract: level, denomination and declaring player (the fields used from
`open_spiel/games/bridge/bridge_scoring.h`, which is not among the sources). -/
structure Contract where
  level : Nat
  denomination : Nat
  declarer : Nat
deriving DecidableEq

/-- Index (0-based) of the first bid in the action list naming denomination
`d`; the accumulator carries the index of the head.  Players alternate
starting with player 0, so the actor of index `k` is `k % kNumPlayers`. -/
def firstNaming : List Action → Nat → Nat → Nat
  | [], _, k => k
  | a :: rest, d, k =>
      if a < kNumBids ∧ bidDenom a = d then k else firstNaming rest d (k + 1)

/-- Modelled from the spec: the achieved contract, derived from the auction
record (spec section 3; the derivation is implemented in the `.cc` file,
absent from the sources).  The contract is computed from the highest bid; the
declarer is the player who first named the winning denomination.  If no bid
was ever made there is no contract. -/
def achievedContract (as : List Action) : Option Contract :=
  match highestBid as with
  | none => none
  | some b => some ⟨bidLevel b, bidDenom b, firstNaming as (bidDenom b) 0 % kNumPlayers⟩

/-- The external double-dummy trick-counting collaborator,
`Tricks(contract, deal) -> tricks taken`, a pure function parameter. -/
abbrev TricksFn := Contract → (Nat → Nat) → Nat

/-- The external point-scoring collaborator,
`Score(contract, tricks) -> signed score`, a pure function parameter. -/
abbrev ScoreFn := Contract → Nat → Int

/-- Modelled from the spec: the raw score of a terminal auction record on a
given card layout (spec section 4.3).  If no contract was reached the deal is
passed out and scores zero; otherwise the external collaborators give the
trick count and the signed point score of the achieved contract. -/
def dealScore (tr : TricksFn) (sf : ScoreFn) (deal : Nat → Nat)
    (as : List Action) : Int :=
  match achievedContract as with
  | none => 0
  | some c => sf c (tr c deal)

/-- Modelled from the spec: the scores of the reference contracts against the
same dealt layout (spec section 4.3). -/
def refScores (tr : TricksFn) (sf : ScoreFn) (refs : List Contract)
    (deal : Nat → Nat) : List Int :=
  refs.map fun c => sf c (tr c deal)

/-- Maximum of a list of scores (zero for the empty list; it is only applied
to the scores of a non-empty reference list). -/
def listMax : List Int → Int
  | [] => 0
  | x :: xs => xs.foldl max x

/-- The state class `UncontestedBiddingState`.  The `mutable std::mt19937
rng_` member is represented by the seed it was constructed from; `score_` is
uninitialised in C++ until `ScoreDeal` runs and is defaulted to 0 here. -/
structure UncontestedBiddingState where
  reference_contracts_ : List Contract
  actions_ : List Action
  rng_ : Int
  deal_ : Nat → Nat
  dealt_ : Bool
  score_ : Int
  reference_scores_ : List Int

/-- Modelled from the spec: `UncontestedBiddingState::ScoreDeal` (body in the
`.cc` file, absent from the sources).  Invoked once at the terminal
transition, it caches the achieved contract's score in `score_` and the
reference contracts' scores in `reference_scores_` (spec sections 4.3
and 9). -/
def ScoreDeal (tr : TricksFn) (sf : ScoreFn)
    (s : UncontestedBiddingState) : UncontestedBiddingState :=
  { s with
    score_ := dealScore tr sf s.deal_ s.actions_
    reference_scores_ := refScores tr sf s.reference_contracts_ s.deal_ }

/-- The first `UncontestedBiddingState` constructor (header, lines 139-147):
no deal yet (`dealt_ = false`, the `Deal` member is default-constructed), the
given action list and RNG seed. -/
def mkStateUndealt (refs : List Contract) (acts : List Action)
    (seed : Int) : UncontestedBiddingState :=
  { reference_contracts_ := refs, actions_ := acts, rng_ := seed,
    deal_ := dealDefault, dealt_ := false, score_ := 0,
    reference_scores_ := [] }

/-- The second, pre-dealt `UncontestedBiddingState` constructor (header,
lines 148-158): stores the given deal with `dealt_ = true` and runs
`if (IsTerminal()) ScoreDeal();` in the constructor body. -/
def mkStatePreDealt (tr : TricksFn) (sf : ScoreFn) (refs : List Contract)
    (deal : Nat → Nat) (acts : List Action) (seed : Int) :
    UncontestedBiddingState :=
  let base : UncontestedBiddingState :=
    { reference_contracts_ := refs, actions_ := acts, rng_ := seed,
      deal_ := deal, dealt_ := true, score_ := 0, reference_scores_ := [] }
  if isTerminal acts then ScoreDeal tr sf base else base

/-- `UncontestedBiddingState::IsTerminal()` on a state. -/
def IsTerminal (s : UncontestedBiddingState) : Bool := isTerminal s.actions_

/-- Modelled from the spec: `UncontestedBiddingState::Returns` (body in the
`.cc` file, absent from the sources).  Player 0 always receives the raw score
of the achieved contract; player 1 receives the same raw score when the
reference-contract list is empty and otherwise the score relative to the
best-scoring reference contract (spec section 4.3).  Both values are read from
the fields cached by `ScoreDeal`. -/
def Returns (s : UncontestedBiddingState) : List Int :=
  [s.score_,
   if s.reference_contracts_.isEmpty then s.score_
   else s.score_ - listMax s.reference_scores_]

/-- Modelled from the spec: `LegalActions` for a player to move (body in the
`.cc` file, absent from the sources): every bid strictly greater than the
current highest bid in the (level, denomination) order — equivalently, with
ids greater than the highest previous bid id — plus Pass (spec
sections 3 and 4.2). -/
def legalActions (as : List Action) : List Action :=
  ((List.range kNumBids).filter fun a =>
    match highestBid as with
    | none => true
    | some b => decide (b < a)) ++ [kPass]

/-- The game class `UncontestedBiddingGame`.  The `mutable int rng_seed_`
member is a per-instance counter (it is a non-static data member in the
header). -/
structure UncontestedBiddingGame where
  reference_contracts_ : List Contract
  forced_actions_ : List Action
  rng_seed_ : Int

/-- `UncontestedBiddingGame::NumDistinctActions()` (header, line 199). -/
def NumDistinctActions (_ : UncontestedBiddingGame) : Nat := kNumActions

/-- `UncontestedBiddingGame::MaxGameLength()` (header, line 217). -/
def MaxGameLength (_ : UncontestedBiddingGame) : Nat := kNumActions

/-- `UncontestedBiddingGame::MinUtility()` (header, lines 205-207). -/
def MinUtility (g : UncontestedBiddingGame) : Int :=
  if g.reference_contracts_.isEmpty then kMinScore else kMinScore - kMaxScore

/-- `UncontestedBiddingGame::MaxUtility()` (header, lines 208-210). -/
def MaxUtility (g : UncontestedBiddingGame) : Int :=
  if g.reference_contracts_.isEmpty then kMaxScore else 0

/-- `UncontestedBiddingGame::NewInitialState()` (header, lines 200-203):
constructs a new un-dealt state seeded with `++rng_seed_`.  Since `rng_seed_`
is a mutable member, the call also advances the game's own counter, modelled
here by returning the updated game alongside the state. -/
def NewInitialState (g : UncontestedBiddingGame) :
    UncontestedBiddingState × UncontestedBiddingGame :=
  (mkStateUndealt g.reference_contracts_ g.forced_actions_ (g.rng_seed_ + 1),
   { g with rng_seed_ := g.rng_seed_ + 1 })

/-- The game object after `n` calls to `NewInitialState`. -/
def gameAfter (g : UncontestedBiddingGame) : Nat → UncontestedBiddingGame
  | 0 => g
  | n + 1 => (NewInitialState (gameAfter g n)).2

/-- The seed received by the state produced by the `n`-th (0-based)
`NewInitialState` call on `g`. -/
def stateSeed (g : UncontestedBiddingGame) (n : Nat) : Int :=
  (NewInitialState (gameAfter g n)).1.rng_

/-- Modelled from the spec: the external point-scoring collaborator (spec
section 6) — standard duplicate-bridge contract scoring, non-vulnerable and
undoubled, as pinned down by the header's own anchor values (`kMinScore =
-650`, thirteen undertricks at 50 each, and `kMaxScore = 1520`, 7NT making)
and by the spec's concrete scenario in which 1NT making exactly scores +90.
Denominations 0 and 1 are the minor suits (20 per trick), 2 and 3 the majors
(30 per trick) and 4 no-trumps (40 for the first trick, 30 thereafter); a
game contract earns a 300 bonus, a partscore 50, and small and grand slams
500 and 1000 more. -/
def bridgeScore (c : Contract) (tricks : Nat) : Int :=
  let target : Nat := c.level + 6
  let trickVal : Int := if c.denomination < 2 then 20 else 30
  let firstTrick : Int := if c.denomination = 4 then 40 else trickVal
  let contractPoints : Int := firstTrick + trickVal * ((c.level : Int) - 1)
  if target ≤ tricks then
    contractPoints +
      (if 100 ≤ contractPoints then 300 else 50) +
      (if c.level = 6 then 500 else if c.level = 7 then 1000 else 0) +
      trickVal * ((tricks : Int) - (target : Int))
  else
    -50 * ((target : Int) - (tricks : Int))

lemma bridgeScore_oneNT_exact : bridgeScore ⟨1, 4, 0⟩ 7 = 90 := by decide

lemma bridgeScore_sevenNT_making : bridgeScore ⟨7, 4, 0⟩ 13 = kMaxScore := by
  decide

lemma bridgeScore_thirteen_undertricks : bridgeScore ⟨7, 0, 0⟩ 0 = kMinScore := by
  decide

/-- Example trick-counting collaborator for concrete evaluations: every
contract takes all 13 tricks on every layout. -/
def exTricks : TricksFn := fun _ _ => 13

/-- Example reference-contract list: one club at level 1, declared by
player 0. -/
def exRefs : List Contract := [⟨1, 0, 0⟩]

lemma hasBid_eq_false_of_all_pass (as : List Action) (h : as.all isPass = true) :
    hasBid as = false := by
  simp only [List.all_eq_true, isPass, beq_iff_eq] at h
  simp only [hasBid, List.any_eq_false, decide_eq_true_eq]
  intro a ha
  rw [h a ha]
  exact Nat.lt_irrefl kNumBids

lemma highestBid_eq_none (as : List Action) (h : ∀ a ∈ as, ¬ a < kNumBids) :
    highestBid as = none := by
  induction as with
  | nil => rfl
  | cons a t ih =>
      have ha : ¬ a < kNumBids := h a (List.mem_cons_self a t)
      simp only [highestBid, if_neg ha]
      exact ih fun x hx => h x (List.mem_cons_of_mem a hx)

lemma highestBid_spec (as : List Action) :
    (highestBid as = none → ∀ p ∈ as, ¬ p < kNumBids) ∧
    (∀ b, highestBid as = some b →
      b ∈ as ∧ b < kNumBids ∧ ∀ p ∈ as, p < kNumBids → p ≤ b) := by
  induction as with
  | nil =>
      constructor
      · intro _ p hp
        cases hp
      · intro b hb
        cases hb
  | cons a t ih =>
      by_cases ha : a < kNumBids
      · constructor
        · intro h
          simp only [highestBid, if_pos ha] at h
          exact absurd h (Option.some_ne_none _)
        · intro b hb
          simp only [highestBid, if_pos ha] at hb
          cases ht : highestBid t with
          | none =>
              rw [ht] at hb
              simp only [Option.some.injEq] at hb
              subst hb
              refine ⟨List.mem_cons_self a t, ha, ?_⟩
              intro p hp hpb
              rcases List.mem_cons.mp hp with rfl | hpt
              · exact Nat.le_refl _
              · exact absurd hpb (ih.1 ht p hpt)
          | some m =>
              rw [ht] at hb
              simp only [Option.some.injEq] at hb
              subst hb
              obtain ⟨hmem, hmb, hbound⟩ := ih.2 m ht
              refine ⟨?_, max_lt ha hmb, ?_⟩
              · rcases Nat.le_total a m with hle | hle
                · rw [Nat.max_eq_right hle]
                  exact List.mem_cons_of_mem a hmem
                · rw [Nat.max_eq_left hle]
                  exact List.mem_cons_self a t
              · intro p hp hpb
                rcases List.mem_cons.mp hp with rfl | hpt
                · exact Nat.le_max_left _ _
                · exact Nat.le_trans (hbound p hpt hpb) (Nat.le_max_right a m)
      · have hstep : highestBid (a :: t) = highestBid t := by
          simp only [highestBid, if_neg ha]
        constructor
        · intro h
          rw [hstep] at h
          intro p hp
          rcases List.mem_cons.mp hp with rfl | hpt
          · exact ha
          · exact ih.1 h p hpt
        · intro b hb
          rw [hstep] at hb
          obtain ⟨hmem, hmb, hbound⟩ := ih.2 b hb
          refine ⟨List.mem_cons_of_mem a hmem, hmb, ?_⟩
          intro p hp hpb
          rcases List.mem_cons.mp hp with rfl | hpt
          · exact absurd hpb ha
          · exact hbound p hpt hpb

lemma highestBid_append_bid (pre : List Action) (b : Nat) (hb : b < kNumBids)
    (h : ∀ p ∈ pre, p < kNumBids → p < b) :
    highestBid (pre ++ [b, kPass, kPass]) = some b := by
  have hp : ¬ kPass < kNumBids := Nat.lt_irrefl kNumBids
  induction pre with
  | nil =>
      simp only [List.nil_append, highestBid, if_pos hb, if_neg hp]
  | cons a t ih =>
      have ht := ih fun p hpre hpb => h p (List.mem_cons_of_mem a hpre) hpb
      by_cases ha : a < kNumBids
      · have hab : a < b := h a (List.mem_cons_self a t) ha
        simp only [List.cons_append, highestBid, List.append_eq, if_pos ha, ht]
        rw [Nat.max_eq_right (Nat.le_of_lt hab)]
      · simp only [List.cons_append, highestBid, if_neg ha]
        exact ht

lemma lastTwoPass_append (pre : List Action) (x y : Action) :
    lastTwoPass (pre ++ [x, y]) = (isPass y && isPass x) := by
  simp [lastTwoPass, List.reverse_append]

lemma mkStatePreDealt_of_terminal (tr : TricksFn) (sf : ScoreFn)
    (refs : List Contract) (deal : Nat → Nat) (acts : List Action) (seed : Int)
    (h : isTerminal acts = true) :
    mkStatePreDealt tr sf refs deal acts seed =
      { reference_contracts_ := refs, actions_ := acts, rng_ := seed,
        deal_ := deal, dealt_ := true,
        score_ := dealScore tr sf deal acts,
        reference_scores_ := refScores tr sf refs deal } := by
  simp [mkStatePreDealt, h, ScoreDeal]

lemma mem_legalActions (as : List Action) (a : Action) :
    a ∈ legalActions as ↔
      (a = kPass ∨ (a < kNumBids ∧ ∀ p ∈ as, p < kNumBids → p < a)) := by
  cases hm : highestBid as with
  | none =>
      have hall : ∀ p ∈ as, ¬ p < kNumBids := (highestBid_spec as).1 hm
      simp only [legalActions, hm, List.mem_append, List.mem_filter,
        List.mem_range, List.mem_singleton]
      constructor
      · intro h
        rcases h with h | h
        · exact Or.inr ⟨h.1, fun p hp hpb => absurd hpb (hall p hp)⟩
        · exact Or.inl h
      · intro h
        rcases h with h | h
        · exact Or.inr h
        · exact Or.inl ⟨h.1, trivial⟩
  | some b =>
      obtain ⟨hmem, hbb, hbound⟩ := (highestBid_spec as).2 b hm
      simp only [legalActions, hm, List.mem_append, List.mem_filter,
        List.mem_range, List.mem_singleton, decide_eq_true_eq]
      constructor
      · intro h
        rcases h with ⟨ha, hba⟩ | h
        · exact Or.inr ⟨ha, fun p hp hpb => Nat.lt_of_le_of_lt (hbound p hp hpb) hba⟩
        · exact Or.inl h
      · intro h
        rcases h with h | ⟨ha, hall⟩
        · exact Or.inr h
        · exact Or.inl ⟨ha, hall b hmem hbb⟩

lemma gameAfter_seed (g : UncontestedBiddingGame) :
    ∀ n, (gameAfter g n).rng_seed_ = g.rng_seed_ + n := by
  intro n
  induction n with
  | zero => simp [gameAfter]
  | succ m ih =>
      simp only [gameAfter, NewInitialState, ih]
      push_cast
      ring

/-- Claim C1 (corrected, spec-modelled `IsTerminal`): under the spec's
terminal condition, a fully passed-out record (no bid ever made) is terminal
with the passed-out score 0 once it contains three passes — not already at
`[Pass, Pass]` as the claim states; an auction record ending
`[..., BID, Pass, Pass]` whose earlier bids are all below BID (as legal play
guarantees) is terminal and the achieved contract is BID; and every record
whose action count reaches `kNumActions` — the value `MaxGameLength()`
returns — is terminal. -/
theorem termination_correctness :
    (∀ as : List Action, as.all isPass = true → 3 ≤ as.length →
      isTerminal as = true ∧
      ∀ (tr : TricksFn) (sf : ScoreFn) (refs : List Contract)
        (deal : Nat → Nat) (seed : Int),
        (mkStatePreDealt tr sf refs deal as seed).score_ = 0) ∧
    (∀ (pre : List Action) (b : Nat), b < kNumBids →
      (∀ p ∈ pre, p < kNumBids → p < b) →
      isTerminal (pre ++ [b, kPass, kPass]) = true ∧
      ∃ c, achievedContract (pre ++ [b, kPass, kPass]) = some c ∧
        c.level = bidLevel b ∧ c.denomination = bidDenom b) ∧
    (∀ as : List Action, kNumActions ≤ as.length → isTerminal as = true) ∧
    (∀ g : UncontestedBiddingGame, MaxGameLength g = kNumActions) := by
  refine ⟨?_, ?_, ?_, fun _ => rfl⟩
  · intro as hall hlen
    have hnb : hasBid as = false := hasBid_eq_false_of_all_pass as hall
    have hterm : isTerminal as = true := by
      simp [isTerminal, hnb, hlen]
    refine ⟨hterm, ?_⟩
    intro tr sf refs deal seed
    rw [mkStatePreDealt_of_terminal tr sf refs deal as seed hterm]
    have hnone : highestBid as = none := by
      apply highestBid_eq_none
      intro a ha
      simp only [List.all_eq_true, isPass, beq_iff_eq] at hall
      rw [hall a ha]
      exact Nat.lt_irrefl kNumBids
    simp [dealScore, achievedContract, hnone]
  · intro pre b hb hmono
    have hhb : highestBid (pre ++ [b, kPass, kPass]) = some b :=
      highestBid_append_bid pre b hb hmono
    constructor
    · have hlt : lastTwoPass (pre ++ [b, kPass, kPass]) = true := by
        rw [show pre ++ [b, kPass, kPass] = (pre ++ [b]) ++ [kPass, kPass] from
          by simp]
        rw [lastTwoPass_append]
        simp [isPass]
      have hbid : hasBid (pre ++ [b, kPass, kPass]) = true := by
        simp only [hasBid, List.any_eq_true, decide_eq_true_eq]
        exact ⟨b, by simp, hb⟩
      simp [isTerminal, hlt, hbid]
    · refine ⟨⟨bidLevel b, bidDenom b,
        firstNaming (pre ++ [b, kPass, kPass]) (bidDenom b) 0 % kNumPlayers⟩,
        ?_, rfl, rfl⟩
      simp [achievedContract, hhb]
  · intro as hlen
    simp [isTerminal, hlen]

/-- Witness for C1 at concrete auction records. -/
theorem termination_correctness_witness :
    isTerminal [kPass, kPass, kPass] = true ∧
    (mkStatePreDealt exTricks bridgeScore [] dealDefault
        [kPass, kPass, kPass] 0).score_ = 0 ∧
    isTerminal ([0] ++ [34, kPass, kPass]) = true := by
  have h := termination_correctness
  have h1 := h.1 [kPass, kPass, kPass] (by decide) (by decide)
  exact ⟨h1.1, h1.2 exTricks bridgeScore [] dealDefault 0,
    (h.2.1 [0] 34 (by decide) (by decide)).1⟩

/-- Counterexample to claim C1 as stated: the auction record `[Pass, Pass]`
has no prior bid and length at most `kNumActions`, yet the state holding it is
not terminal under the spec's terminal condition, which requires three passes
when no bid was ever made. -/
theorem two_passes_not_terminal :
    hasBid [kPass, kPass] = false ∧ [kPass, kPass].length ≤ kNumActions ∧
    IsTerminal (mkStatePreDealt exTricks bridgeScore [] dealDefault
      [kPass, kPass] 0) = false := by decide

/-- Claim C2 (corrected, spec-modelled `Returns`/`ScoreDeal`): on every
terminal state with a non-empty reference-contract list, player 1's return
value equals `score_ - max(reference_scores)`; it is ≤ 0 exactly when the
achieved score does not exceed the best reference score (not unconditionally,
as the claim states), and equals 0 exactly when the achieved contract's raw
score equals the maximum reference score on the dealt layout.  With an empty
reference list player 1's return value equals player 0's. -/
theorem relative_scoring_returns (tr : TricksFn) (sf : ScoreFn)
    (refs : List Contract) (deal : Nat → Nat) (as : List Action) (seed : Int)
    (hterm : isTerminal as = true) :
    (refs ≠ [] →
      Returns (mkStatePreDealt tr sf refs deal as seed) =
        [dealScore tr sf deal as,
         dealScore tr sf deal as - listMax (refScores tr sf refs deal)] ∧
      (dealScore tr sf deal as - listMax (refScores tr sf refs deal) ≤ 0 ↔
        dealScore tr sf deal as ≤ listMax (refScores tr sf refs deal)) ∧
      (dealScore tr sf deal as - listMax (refScores tr sf refs deal) = 0 ↔
        dealScore tr sf deal as = listMax (refScores tr sf refs deal))) ∧
    (refs = [] →
      Returns (mkStatePreDealt tr sf refs deal as seed) =
        [dealScore tr sf deal as, dealScore tr sf deal as]) := by
  rw [mkStatePreDealt_of_terminal tr sf refs deal as seed hterm]
  constructor
  · intro hne
    have hie : refs.isEmpty = false := by
      cases refs with
      | nil => exact absurd rfl hne
      | cons a t => rfl
    refine ⟨?_, sub_nonpos, sub_eq_zero⟩
    simp [Returns, hie]
  · intro he
    subst he
    simp [Returns]

/-- Witness for C2 at a concrete terminal state with the standard scoring
table. -/
theorem relative_scoring_returns_witness :
    isTerminal [34, kPass, kPass] = true ∧ exRefs ≠ [] ∧
    Returns (mkStatePreDealt exTricks bridgeScore exRefs dealDefault
        [34, kPass, kPass] 7) =
      [dealScore exTricks bridgeScore dealDefault [34, kPass, kPass],
       dealScore exTricks bridgeScore dealDefault [34, kPass, kPass] -
         listMax (refScores exTricks bridgeScore exRefs dealDefault)] :=
  ⟨by decide, by decide,
    ((relative_scoring_returns exTricks bridgeScore exRefs dealDefault
        [34, kPass, kPass] 7 (by decide)).1 (by decide)).1⟩

/-- Counterexample to claim C2 as stated: with the single reference contract
1♣ by player 0, a terminal auction achieving 7NT, and the standard scoring
table, every contract taking all 13 tricks on the layout, player 1's return
value is `1520 - 190 = 1330 > 0`: the unconditional bound "player 1's return
value is always ≤ 0" fails when the achieved contract outscores every
reference contract. -/
theorem relative_scoring_positive :
    (mkStatePreDealt exTricks bridgeScore exRefs dealDefault
        [34, kPass, kPass] 0).reference_contracts_ ≠ [] ∧
    isTerminal [34, kPass, kPass] = true ∧
    Returns (mkStatePreDealt exTricks bridgeScore exRefs dealDefault
        [34, kPass, kPass] 0) = [1520, 1330] ∧
    ¬ ((Returns (mkStatePreDealt exTricks bridgeScore exRefs dealDefault
        [34, kPass, kPass] 0)).getD 1 0 ≤ 0) := by decide

/-- Claim C3: the utility bounds as functions of the reference-contract list:
with references the range is `[kMinScore - kMaxScore, 0]`, without it is
`[kMinScore, kMaxScore]`. -/
theorem utility_bounds (g : UncontestedBiddingGame) :
    (g.reference_contracts_ ≠ [] →
      MinUtility g = kMinScore - kMaxScore ∧ MaxUtility g = 0) ∧
    (g.reference_contracts_ = [] →
      MinUtility g = kMinScore ∧ MaxUtility g = kMaxScore) := by
  cases h : g.reference_contracts_ with
  | nil =>
      exact ⟨fun hne => absurd rfl hne,
        fun _ => by constructor <;> simp [MinUtility, MaxUtility, h]⟩
  | cons a t =>
      refine ⟨fun _ => ?_, fun he => by cases he⟩
      constructor <;> simp [MinUtility, MaxUtility, h]

/-- Witness for C3 at concrete games with empty and non-empty reference
lists. -/
theorem utility_bounds_witness :
    MinUtility ⟨[], [], 0⟩ = kMinScore ∧ MaxUtility ⟨[], [], 0⟩ = kMaxScore ∧
    MinUtility ⟨[⟨1, 0, 0⟩], [], 0⟩ = kMinScore - kMaxScore ∧
    MaxUtility ⟨[⟨1, 0, 0⟩], [], 0⟩ = 0 := by
  have h1 := (utility_bounds ⟨[], [], 0⟩).2 rfl
  have h2 := (utility_bounds ⟨[⟨1, 0, 0⟩], [], 0⟩).1 (by decide)
  exact ⟨h1.1, h1.2, h2.1, h2.2⟩

/-- Claim C7 (corrected): the seed counter is a per-game-instance member
(`mutable int rng_seed_`), incremented at each `NewInitialState()` call.
Successive states of a single game receive the distinct, strictly increasing,
reproducible seeds `rng_seed_ + 1, rng_seed_ + 2, …` — but the counter is
neither process-wide nor applied at game-construction time, and distinctness
across game instances is not guaranteed. -/
theorem state_seed_progression (g : UncontestedBiddingGame) (n : Nat) :
    stateSeed g n = g.rng_seed_ + n + 1 ∧
    ∀ m, m < n → stateSeed g m < stateSeed g n := by
  have hseed : ∀ k, stateSeed g k = g.rng_seed_ + k + 1 := by
    intro k
    simp only [stateSeed, NewInitialState, mkStateUndealt]
    rw [gameAfter_seed g k]
  refine ⟨hseed n, fun m hm => ?_⟩
  rw [hseed m, hseed n]
  have hc : (m : Int) < n := by exact_mod_cast hm
  omega

/-- Witness for C7 on a concrete game and pair of indices. -/
theorem state_seed_progression_witness :
    (1 : Nat) < 2 ∧ stateSeed ⟨[], [], 0⟩ 1 < stateSeed ⟨[], [], 0⟩ 2 :=
  ⟨by decide, (state_seed_progression ⟨[], [], 0⟩ 2).2 1 (by decide)⟩

/-- Counterexample to claim C7 as stated: the seed counter lives in each game
object, so two games constructed with consecutive counter values 1 and 2
(exactly what a process-wide construction-time counter would hand out)
produce states with colliding seeds — the second state of the first game and
the first state of the second game are both seeded 3.  The sequence of
constructed games therefore does not receive pairwise-distinct state seeds,
and the two instances share a random stream. -/
theorem seed_sharing_across_games :
    (⟨[], [], 1⟩ : UncontestedBiddingGame).rng_seed_ ≠
      (⟨[], [], 2⟩ : UncontestedBiddingGame).rng_seed_ ∧
    stateSeed ⟨[], [], 1⟩ 1 = stateSeed ⟨[], [], 2⟩ 0 ∧
    stateSeed ⟨[], [], 1⟩ 1 = 3 := by decide

/-- Claim C8 (spec-modelled `ScoreDeal`/`Returns`): scoring happens at the
terminal transition and is cached.  A pre-dealt state constructed with an
already-terminal action sequence has `score_` and `reference_scores_`
populated during construction with exactly the values `ScoreDeal` computes;
`ScoreDeal` is idempotent — running it again on an already-scored state
changes nothing, so repeated calls yield identical results; and `Returns`
reads only the cached fields, so repeated terminal queries agree without
recomputation from the deal or auction record. -/
theorem scoring_once_cached (tr : TricksFn) (sf : ScoreFn)
    (refs : List Contract) (deal : Nat → Nat) (as : List Action) (seed : Int)
    (hterm : isTerminal as = true) :
    (mkStatePreDealt tr sf refs deal as seed).score_ =
        dealScore tr sf deal as ∧
    (mkStatePreDealt tr sf refs deal as seed).reference_scores_ =
        refScores tr sf refs deal ∧
    (∀ s : UncontestedBiddingState,
        ScoreDeal tr sf (ScoreDeal tr sf s) = ScoreDeal tr sf s) ∧
    (∀ s t : UncontestedBiddingState, s.score_ = t.score_ →
        s.reference_scores_ = t.reference_scores_ →
        s.reference_contracts_ = t.reference_contracts_ →
        Returns s = Returns t) := by
  rw [mkStatePreDealt_of_terminal tr sf refs deal as seed hterm]
  refine ⟨rfl, rfl, fun s => rfl, fun s t h1 h2 h3 => ?_⟩
  simp [Returns, h1, h2, h3]

/-- Witness for C8 at a concrete terminal construction. -/
theorem scoring_once_cached_witness :
    isTerminal [34, kPass, kPass] = true ∧
    (mkStatePreDealt exTricks bridgeScore exRefs dealDefault
        [34, kPass, kPass] 2).score_ =
      dealScore exTricks bridgeScore dealDefault [34, kPass, kPass] :=
  ⟨by decide, (scoring_once_cached exTricks bridgeScore exRefs dealDefault
      [34, kPass, kPass] 2 (by decide)).1⟩

/-- Claim C9 (spec-modelled bid encoding and `LegalActions`): bids are exactly
the ids in `[0, kNumBids)` with `kNumBids = 7 * 5 = 35`, each decomposing into
a level in 1..7 and one of 5 denominations; the id order is exactly the strict
lexicographic (level, denomination) order; a bid is legal iff it strictly
exceeds every previous bid, and Pass (id `kNumBids = 35`) is always legal;
`NumDistinctActions()` returns `kNumActions = kNumBids + 1 = 36`. -/
theorem bid_action_space :
    kNumBids = 35 ∧ kNumActions = 36 ∧
    (∀ g : UncontestedBiddingGame, NumDistinctActions g = kNumActions) ∧
    kPass = kNumBids ∧
    (∀ a, a < kNumBids → 1 ≤ bidLevel a ∧ bidLevel a ≤ kMaxBid ∧
      bidDenom a < kNumDenominations ∧ bidId (bidLevel a) (bidDenom a) = a) ∧
    (∀ a, a < kNumBids → ∀ b, b < kNumBids →
      (a < b ↔ (bidLevel a < bidLevel b ∨
        (bidLevel a = bidLevel b ∧ bidDenom a < bidDenom b)))) ∧
    (∀ (as : List Action) (a : Action), a ∈ legalActions as ↔
      (a = kPass ∨ (a < kNumBids ∧ ∀ p ∈ as, p < kNumBids → p < a))) :=
  ⟨rfl, rfl, fun _ => rfl, rfl, by decide, by decide, mem_legalActions⟩

/-- Witness for C9 at concrete bid ids and a concrete auction record. -/
theorem bid_action_space_witness :
    ((17 : Nat) < kNumBids ∧ bidId (bidLevel 17) (bidDenom 17) = 17) ∧
    ((3 : Nat) < kNumBids ∧ (22 : Nat) < kNumBids ∧
      ((3 : Nat) < 22 ↔ (bidLevel 3 < bidLevel 22 ∨
        (bidLevel 3 = bidLevel 22 ∧ bidDenom 3 < bidDenom 22)))) :=
  ⟨⟨by decide, (bid_action_space.2.2.2.2.1 17 (by decide)).2.2.2⟩,
   ⟨by decide, by decide,
     bid_action_space.2.2.2.2.2.1 3 (by decide) 22 (by decide)⟩⟩

/-- Claim C10: the concrete bounds: `kMinScore = -650`, `kMaxScore = 1520`;
a game with an empty reference list has utilities in `[-650, 1520]`, one with
a non-empty reference list in `[-2170, 0]`. -/
theorem concrete_utility_bounds :
    kMinScore = -650 ∧ kMaxScore = 1520 ∧
    (∀ g : UncontestedBiddingGame, g.reference_contracts_ = [] →
      MinUtility g = -650 ∧ MaxUtility g = 1520) ∧
    (∀ g : UncontestedBiddingGame, g.reference_contracts_ ≠ [] →
      MinUtility g = -2170 ∧ MaxUtility g = 0) := by
  refine ⟨rfl, rfl, ?_, ?_⟩
  · intro g h
    constructor <;> simp [MinUtility, MaxUtility, h, kMinScore, kMaxScore]
  · intro g h
    have hie : g.reference_contracts_.isEmpty = false := by
      cases hh : g.reference_contracts_ with
      | nil => exact absurd hh h
      | cons a t => rfl
    constructor <;> simp [MinUtility, MaxUtility, hie, kMinScore, kMaxScore]

/-- Witness for C10 at concrete games. -/
theorem concrete_utility_bounds_witness :
    MinUtility ⟨[], [], 1⟩ = -650 ∧ MaxUtility ⟨[⟨2, 4, 0⟩], [], 1⟩ = 0 :=
  ⟨(concrete_utility_bounds.2.2.1 ⟨[], [], 1⟩ rfl).1,
   (concrete_utility_bounds.2.2.2 ⟨[⟨2, 4, 0⟩], [], 1⟩ (by decide)).2⟩

end bridge
